import Mathlib

set_option linter.unusedVariables false

/-!
Shallow embedding of the tiny shell `shell.c` (job control, signal
synchronization, builtins) together with a model, taken from the
specification, of the job-table helper library that the repository uses
but does not ship.  All definitions are executable; theorems below settle
the frozen claims about the program.
-/

/-! ### Signals and signal sets (Linux numbering) -/

def SIGINT : Nat := 2
def SIGQUIT : Nat := 3
def SIGCHLD : Nat := 17
def SIGCONT : Nat := 18
def SIGTSTP : Nat := 20

/-- A signal mask, as manipulated by sigprocmask / sigsuspend. -/
abbrev SigSet := Finset Nat

/-- `sigfillset`: every signal (Linux signals 1..64). -/
def allSigs : SigSet := Finset.Icc 1 64

/-- The three asynchronous notifications the shell synchronizes on:
built by `sigaddset(SIGCHLD); sigaddset(SIGINT); sigaddset(SIGTSTP)`
in `eval`, `builtincmd` and the handlers. -/
def threeSet : SigSet := {SIGCHLD, SIGINT, SIGTSTP}

/-! ### Job table data model

`tsh_helper` (starter code, not shipped in this repository) provides the
job table.  Modelled from the spec, section 3 and 4.1. -/

inductive JobState
  | FG
  | BG
  | ST
deriving DecidableEq

/-- Modelled from the spec: a JobRecord
`{ job_id : integer > 0, process_id : integer, state, command_text }`. -/
structure JobRec where
  jid : Int
  pid : Int
  state : JobState
  cmdline : String
deriving DecidableEq

/-- Modelled from the spec: the Job Table, a collection of JobRecords. -/
abbrev JobTable := List JobRec

/-- Modelled from the spec: `exists(job_id) → bool`. -/
def job_exists (t : JobTable) (j : Int) : Bool :=
  t.any (fun r => r.jid == j)

/-- Modelled from the spec: `job_id_of(process_id) → job_id or 0`. -/
def job_from_pid (t : JobTable) (p : Int) : Int :=
  match t.find? (fun r => r.pid == p) with
  | some r => r.jid
  | none => 0

/-- Modelled from the spec: `process_id_of(job_id) → pid`. -/
def job_get_pid (t : JobTable) (j : Int) : Int :=
  match t.find? (fun r => r.jid == j) with
  | some r => r.pid
  | none => 0

/-- Modelled from the spec: `state_of(job_id) → state` (as an `Option`,
`none` when the job id is not live). -/
def job_get_state (t : JobTable) (j : Int) : Option JobState :=
  match t.find? (fun r => r.jid == j) with
  | some r => some r.state
  | none => none

/-- Modelled from the spec: the `command_text` of a live job id. -/
def job_get_cmdline (t : JobTable) (j : Int) : String :=
  match t.find? (fun r => r.jid == j) with
  | some r => r.cmdline
  | none => ""

/-- Modelled from the spec: `set_state(job_id, state)`; `command_text`
is immutable, only `state` may change. -/
def job_set_state (t : JobTable) (j : Int) (s : JobState) : JobTable :=
  t.map (fun r => if r.jid == j then { r with state := s } else r)

/-- Modelled from the spec: `remove(job_id)`, a no-op when absent. -/
def delete_job (t : JobTable) (j : Int) : JobTable :=
  t.filter (fun r => r.jid != j)

/-- Modelled from the spec: `foreground_job() → job_id or 0`, the unique
Foreground job if one exists. -/
def fg_job (t : JobTable) : Int :=
  match t.find? (fun r => r.state == JobState.FG) with
  | some r => r.jid
  | none => 0

/-- Modelled from the spec: `add(process_id, initial_state, command_text)
→ job_id`, assigning a fresh job id `> 0`, monotonically increasing
(capacity-exceeded behavior is left unspecified by the spec and is not
modelled). -/
def add_job (t : JobTable) (p : Int) (s : JobState) (cmd : String) :
    JobTable × Int :=
  let j := (t.foldr (fun r m => max m r.jid) 0) + 1
  (t ++ [⟨j, p, s, cmd⟩], j)

/-- Number of records in state Foreground. -/
def countFG (t : JobTable) : Nat :=
  (t.filter (fun r => r.state == JobState.FG)).length

/-! ### C library model: `atoi` -/

/-- Accumulate leading decimal digits, as `atoi` does. -/
def atoiDigits : List Char → Nat → Nat
  | c :: cs, acc =>
    if c.isDigit then atoiDigits cs (acc * 10 + (c.toNat - 48)) else acc
  | [], acc => acc

/-- C `isspace` (the characters of the C locale). -/
def isSpaceC (c : Char) : Bool :=
  c == ' ' || c == '\t' || c == '\n' || c == '\x0b' || c == '\x0c' ||
    c == '\x0d'

/-- C `atoi`: skip whitespace, optional sign, then leading digits;
`0` when no digits are found. -/
def atoi (s : String) : Int :=
  match s.data.dropWhile (fun c => isSpaceC c) with
  | '-' :: rest => -(atoiDigits rest 0 : Int)
  | '+' :: rest => (atoiDigits rest 0 : Int)
  | rest => (atoiDigits rest 0 : Int)

/-! ### Child wait-status model -/

/-- Outcome reported by `waitpid` for one reaped child. -/
inductive Status
  | exited (code : Nat)
  | signaled (sig : Nat)
  | stopped (sig : Nat)
deriving DecidableEq

/-- `WIFSTOPPED`. -/
def isStopped : Status → Bool
  | .stopped _ => true
  | _ => false

/-- `WIFSIGNALED`. -/
def isSignaled : Status → Bool
  | .signaled _ => true
  | _ => false

/-! ### SIGCHLD handler (shell.c lines 492-530)

The handler reaps children with `waitpid(-1, &status, WNOHANG|WUNTRACED)`
in a loop; `reapOne` is the body of that loop for one reaped child. -/

/-- Body of `sigchld_handler`'s reap loop for one child `(p, st)`:
look up the job id; if terminated by a signal (and the pid is known),
print the termination notice; if stopped, print the stop notice and set
the state to `ST`; if not stopped, delete the record. -/
def reapOne (t : JobTable) (p : Int) (st : Status) : JobTable × List String :=
  let jid := job_from_pid t p
  let out1 : List String :=
    match st with
    | .signaled s =>
      if jid ≠ 0 then [s!"Job [{jid}] ({p}) terminated by signal {s}"]
      else []
    | _ => []
  let step2 : JobTable × List String :=
    match st with
    | .stopped s =>
      (job_set_state t jid JobState.ST,
        [s!"Job [{jid}] ({p}) stopped by signal {s}"])
    | _ => (t, [])
  let t2 := if isStopped st then step2.1 else delete_job step2.1 jid
  (t2, out1 ++ step2.2)

/-- `sigchld_handler`: reap every pending child in turn. -/
def sigchld_handler (t : JobTable) (reaps : List (Int × Status)) :
    JobTable × List String :=
  reaps.foldl
    (fun acc e =>
      let r := reapOne acc.1 e.1 e.2
      (r.1, acc.2 ++ r.2))
    (t, [])

/-! ### The foreground wait loop (shell.c lines 293-300 and 446-453, 468-474)

`while ((fjid = fg_job()) > 0) { state = job_get_state(fjid);
 if (state == ST) { [print;] break; } sigsuspend(...); }`

`sigsuspend` blocks until a handler runs; the handler's table update is
modelled by consuming the next pending child notification.  `none` means
the loop would suspend with no notification ever arriving. -/

def waitRun (printStop : Bool) (t : JobTable) (evs : List (Int × Status)) :
    Option (JobTable × List String) :=
  let fjid := fg_job t
  if fjid > 0 then
    if job_get_state t fjid = some JobState.ST then
      some (t, if printStop then ["job is stopped"] else [])
    else
      match evs with
      | [] => none
      | (p, st) :: rest =>
        let r := reapOne t p st
        match waitRun printStop r.1 rest with
        | some (t2, out2) => some (t2, r.2 ++ out2)
        | none => none
  else
    some (t, [])

/-- The loop's exit condition, exactly as checked by the source:
no foreground job, or the foreground job's state is `ST`. -/
def loopExitCond (t : JobTable) : Bool :=
  !(fg_job t > 0) || (job_get_state t (fg_job t) == some JobState.ST)

/-! ### The bg and fg builtins (shell.c lines 373-477) -/

/-- Result of a bg/fg builtin invocation: the job table afterwards, the
lines printed, the `killpg` calls issued `(pgid, signal)`, and the job id
the reference resolved to (`none` when the invocation errored out). -/
structure BuiltinRes where
  tbl : JobTable
  out : List String
  kills : List (Int × Int)
  resolved : Option Int
deriving DecidableEq

/-- `argv[1]` with the `%` marker stripped when present
(`if ((*start) != '%') num = token.argv[1]; else num = token.argv[1]+1`). -/
def stripMarker (arg : String) : String :=
  if arg.data.head? = some '%' then arg.drop 1 else arg

/-- The `BUILTIN_BG` block of `builtincmd` (shell.c lines 373-415). -/
def bg_builtin (t : JobTable) (argc : Nat) (argv : List String) :
    BuiltinRes :=
  if argc = 1 then
    ⟨t, ["bg command requires PID or %jobid argument"], [], none⟩
  else
    let arg := argv.getD 1 ""
    let num := stripMarker arg
    let jid := atoi num
    if jid = 0 then
      ⟨t, ["bg: argument must be a PID or %jobid"], [], none⟩
    else if job_exists t jid then
      -- jid is jid
      let pid := job_get_pid t jid
      let cmd := job_get_cmdline t jid
      ⟨job_set_state t jid JobState.BG,
        [s!"[{jid}] ({pid}) {cmd}"], [(pid, SIGCONT)], some jid⟩
    else
      -- jid is pid
      let pid := jid
      let jid2 := job_from_pid t pid
      if jid2 = 0 then
        ⟨t, [s!"{arg}: No such job"], [], none⟩
      else
        let cmd := job_get_cmdline t jid2
        ⟨job_set_state t jid2 JobState.BG,
          [s!"[{jid2}] ({pid}) {cmd}"], [(pid, SIGCONT)], some jid2⟩

/-- The `BUILTIN_FG` block of `builtincmd` (shell.c lines 417-477).
`evs` are the child notifications delivered while suspended in the wait
loop; `none` when that loop would never terminate. -/
def fg_builtin (t : JobTable) (argc : Nat) (argv : List String)
    (evs : List (Int × Status)) : Option BuiltinRes :=
  if argc = 1 then
    some ⟨t, ["fg command requires PID or %jobid argument"], [], none⟩
  else
    let arg := argv.getD 1 ""
    let num := stripMarker arg
    let jid := atoi num
    if jid = 0 then
      some ⟨t, ["fg: argument must be a PID or %jobid"], [], none⟩
    else if job_exists t jid then
      -- jid is jid
      let t1 := job_set_state t jid JobState.FG
      let pid := job_get_pid t1 jid
      match waitRun false t1 evs with
      | some (t2, out) => some ⟨t2, out, [(pid, SIGCONT)], some jid⟩
      | none => none
    else
      -- jid is pid
      let pid := jid
      let jid2 := job_from_pid t pid
      if jid2 = 0 then
        some ⟨t, [s!"{arg}: No such job"], [], none⟩
      else
        let t1 := job_set_state t jid2 JobState.FG
        match waitRun false t1 evs with
        | some (t2, out) => some ⟨t2, out, [(pid, SIGCONT)], some jid2⟩
        | none => none

/-! ### File-system and launch model -/

/-- Outcome of `open`: success, `errno == ENOENT`, or any other failure
(the source prints "Permission denied" for every non-ENOENT `errno`). -/
inductive OpenRes
  | ok
  | enoent
  | eperm
deriving DecidableEq

/-- File-system oracle: what `open` returns for a name, for reading
(`O_RDONLY`) and for writing (`O_WRONLY|O_CREAT|O_TRUNC`). -/
structure FS where
  openRead : String → OpenRes
  openWrite : String → OpenRes

/-- The error report eval emits when an `open` fails
(`errno == ENOENT ? "No such file or directory" : "Permission denied"`). -/
def openFailMsg (name : String) (r : OpenRes) : String :=
  if r = OpenRes.enoent then s!"{name}: No such file or directory"
  else s!"{name}: Permission denied"

/-- The child after `execve` fails (shell.c lines 260-271): it re-opens
`argv[0]` for reading; only if that open fails does it print the
no-such-file / permission-denied report; then it calls `exit(0)`.
Returns the lines the child prints and the child's exit code. -/
def child_exec_failure (fs : FS) (prog : String) : List String × Nat :=
  let msgs : List String :=
    match fs.openRead prog with
    | .ok => []
    | .enoent => [s!"{prog}: No such file or directory"]
    | .eperm => [s!"{prog}: Permission denied"]
  (msgs, 0)

/-! ### eval (shell.c lines 187-316), non-builtin path

`parseline`, flag parsing and the builtin dispatch are external
collaborators; `eval_model` models eval's own control flow for a
non-builtin command: bail out on parse error/empty, open redirection
targets, fork, register the job, then wait (foreground) or announce
(background).  `newPid` is the pid `fork` returns, `evs` the child
notifications delivered while suspended in the foreground wait loop. -/

inductive ParseRes
  | error
  | empty
  | fg
  | bg
deriving DecidableEq

structure EvalIn where
  parse : ParseRes
  infile : Option String
  outfile : Option String
  argv0 : String
  cmdline : String

structure EvalOut where
  tbl : JobTable
  out : List String
  forked : Bool
  diverged : Bool
deriving DecidableEq

/-- eval's redirection phase (shell.c lines 222-248): open the input
file, then the output file; the first failure yields the report. -/
def redirFail (fs : FS) (inp : EvalIn) : Option String :=
  match inp.infile with
  | some name =>
    match fs.openRead name with
    | OpenRes.ok =>
      match inp.outfile with
      | some oname =>
        match fs.openWrite oname with
        | OpenRes.ok => none
        | r => some (openFailMsg oname r)
      | none => none
    | r => some (openFailMsg name r)
  | none =>
    match inp.outfile with
    | some oname =>
      match fs.openWrite oname with
      | OpenRes.ok => none
      | r => some (openFailMsg oname r)
    | none => none

/-- eval on a non-builtin command (shell.c lines 209-315). -/
def eval_model (t : JobTable) (inp : EvalIn) (fs : FS) (newPid : Int)
    (evs : List (Int × Status)) : EvalOut :=
  if inp.parse = ParseRes.error ∨ inp.parse = ParseRes.empty then
    ⟨t, [], false, false⟩
  else
    match redirFail fs inp with
    | some msg => ⟨t, [msg], false, false⟩
    | none =>
      -- fork (line 251); the parent registers the job (lines 276-285)
      let aj := add_job t newPid
        (if inp.parse = ParseRes.bg then JobState.BG else JobState.FG)
        inp.cmdline
      if inp.parse = ParseRes.fg then
        match waitRun true aj.1 evs with
        | some (t2, out) => ⟨t2, out, true, false⟩
        | none => ⟨aj.1, [], true, true⟩
      else
        ⟨aj.1, [s!"[{aj.2}] ({newPid}) {inp.cmdline}"], true, false⟩

/-! ### Signal-mask footprint

Transcribed `sigprocmask`/`sigsuspend` by `sigprocmask`, in source
order, for each exit path.  `critical` collects the masks in force while
the job table is accessed, `check` the mask in force at the wait loop's
condition checks, `suspend` the mask `sigsuspend` installs while
suspended, `final` the mask left installed when the function returns. -/

structure MaskTrace where
  critical : List SigSet
  check : Option SigSet
  suspend : Option SigSet
  final : SigSet
deriving DecidableEq

inductive EvalPath
  | infileFail
  | outfileFail
  | fgWait
  | bgLaunch
deriving DecidableEq

/-- Mask footprint of eval's non-builtin paths (shell.c lines 191-315). -/
def eval_masks (entry : SigSet) (p : EvalPath) : MaskTrace :=
  -- lines 192-201: sigfillset(&mask_all); sigchld / mask_one hold
  -- SIGCHLD, SIGINT, SIGTSTP; sigemptyset(&prev)
  let mask_all := allSigs
  let sigchldSet : SigSet := insert SIGCHLD (insert SIGINT {SIGTSTP})
  let prev : SigSet := ∅
  let mask_one : SigSet := insert SIGCHLD (insert SIGINT {SIGTSTP})
  -- line 221: sigprocmask(SIG_BLOCK, &mask_one, &prev_all)
  let prev_all := entry
  let m := entry ∪ mask_one
  match p with
  | .infileFail =>
    -- line 231: sigprocmask(SIG_SETMASK, &prev_all, NULL); return
    ⟨[], none, none, prev_all⟩
  | .outfileFail =>
    -- line 245: sigprocmask(SIG_SETMASK, &prev_all, NULL); return
    ⟨[], none, none, prev_all⟩
  | .fgWait =>
    -- line 276: sigprocmask(SIG_BLOCK, &mask_all, NULL); add_job
    let m := m ∪ mask_all
    let c1 := m
    -- line 285: sigprocmask(SIG_SETMASK, &prev_all, NULL)
    let m := prev_all
    -- line 291: sigprocmask(SIG_BLOCK, &sigchld, NULL); wait loop checks
    let m := m ∪ sigchldSet
    let c2 := m
    -- line 299: sigsuspend(&prev) suspends with mask prev, then
    -- reinstalls m on return
    -- line 307: sigprocmask(SIG_SETMASK, &prev, NULL); return
    ⟨[c1, c2], some c2, some prev, prev⟩
  | .bgLaunch =>
    -- line 276: sigprocmask(SIG_BLOCK, &mask_all, NULL); add_job
    let m := m ∪ mask_all
    let c1 := m
    -- line 285: sigprocmask(SIG_SETMASK, &prev_all, NULL)
    let m := prev_all
    -- line 311: sigprocmask(SIG_BLOCK, &mask_all, &prev_all); announce
    let prev_all2 := m
    let m := m ∪ mask_all
    let c2 := m
    -- line 313: sigprocmask(SIG_SETMASK, &prev_all, NULL); return
    ⟨[c1, c2], none, none, prev_all2⟩

inductive BuiltinPath
  | jobsList
  | jobsFail
  | refErrArg
  | bgNoSuchJob
  | bgRun
  | fgNoSuchJob
  | fgWaitJid
  | fgWaitPid
deriving DecidableEq

/-- Mask footprint of `builtincmd`'s paths (shell.c lines 330-477). -/
def builtincmd_masks (entry : SigSet) (p : BuiltinPath) : MaskTrace :=
  -- lines 332-342: same mask set-up as eval
  let mask_all := allSigs
  let sigchldSet : SigSet := insert SIGCHLD (insert SIGINT {SIGTSTP})
  let prev : SigSet := ∅
  match p with
  | .refErrArg =>
    -- lines 374-390 / 419-435: no sigprocmask before the early return
    ⟨[], none, none, entry⟩
  | .jobsList =>
    -- line 351: SIG_BLOCK mask_all saving prev_all; list_jobs;
    -- line 370: SIG_SETMASK prev_all
    let prev_all := entry
    let m := entry ∪ mask_all
    ⟨[m], none, none, prev_all⟩
  | .jobsFail =>
    -- line 351 block; open fails; line 362 restore; return
    let prev_all := entry
    let m := entry ∪ mask_all
    ⟨[m], none, none, prev_all⟩
  | .bgNoSuchJob =>
    -- line 392 block saving prev_all; lookups; line 406 restore; return
    let prev_all := entry
    let m := entry ∪ mask_all
    ⟨[m], none, none, prev_all⟩
  | .bgRun =>
    -- line 392 block saving prev_all; table ops; line 414 restore
    let prev_all := entry
    let m := entry ∪ mask_all
    ⟨[m], none, none, prev_all⟩
  | .fgNoSuchJob =>
    -- line 437 block saving prev_all; lookups; line 460 restore; return
    let prev_all := entry
    let m := entry ∪ mask_all
    ⟨[m], none, none, prev_all⟩
  | .fgWaitJid =>
    -- line 437: SIG_BLOCK mask_all saving prev_all; set_state/get_pid
    let prev_all := entry
    let m := entry ∪ mask_all
    let c1 := m
    -- line 444: SIG_SETMASK prev_all
    let m := prev_all
    -- line 445: SIG_BLOCK sigchld; wait loop checks under m
    let m := m ∪ sigchldSet
    let c2 := m
    -- line 452: sigsuspend(&prev_all) suspends with mask prev_all
    -- line 476: SIG_SETMASK prev_all; return
    ⟨[c1, c2], some c2, some prev_all, prev_all⟩
  | .fgWaitPid =>
    -- line 437 block saving prev_all; from_pid/set_state under m
    let prev_all := entry
    let m := entry ∪ mask_all
    let c1 := m
    -- line 465: SIG_SETMASK prev_all
    let m := prev_all
    -- line 467: SIG_BLOCK sigchld; wait loop checks under m
    let m := m ∪ sigchldSet
    let c2 := m
    -- line 473: sigsuspend(&prev_all); line 476: SIG_SETMASK prev_all
    ⟨[c1, c2], some c2, some prev_all, prev_all⟩

/-! ### Well-formedness of the job table and basic lemmas -/

/-- Well-formed job table: positive job ids, no duplicate job ids
(the spec's uniqueness and positivity invariants for `job_id`). -/
def WF (t : JobTable) : Prop :=
  (∀ r ∈ t, 0 < r.jid) ∧ (t.map (fun r => r.jid)).Nodup

/-- Distinct process ids among live records (the spec's `process_id`
uniqueness invariant). -/
def PidsNodup (t : JobTable) : Prop :=
  (t.map (fun r => r.pid)).Nodup

/-- Only job `j` can carry state Foreground (the invariant the wait
loop maintains for the launched job `j`). -/
def FGonly (t : JobTable) (j : Int) : Prop :=
  ∀ r ∈ t, r.state = JobState.FG → r.jid = j

/-- During the wait, job `j` is Foreground, Stopped, or gone — the only
states the asynchronous handler can leave it in. -/
def JStates (t : JobTable) (j : Int) : Prop :=
  job_get_state t j = some JobState.FG ∨
    job_get_state t j = some JobState.ST ∨ job_get_state t j = none

/-! ### Shell-level transition system

One `HStep` is one table update made by the SIGCHLD handler for one
reaped child; these can occur at any time the notifications are
deliverable.  `PromptReach` holds for job tables observable at the
prompt; `Reach` also covers the tables observable while the main flow
sits inside a foreground wait. -/

/-- One asynchronous child-status handler update of the job table. -/
inductive HStep : JobTable → JobTable → Prop
  | reap (t : JobTable) (p : Int) (st : Status) :
      HStep t (reapOne t p st).1

/-- Any number of asynchronous handler updates. -/
def HReach : JobTable → JobTable → Prop :=
  Relation.ReflTransGen HStep

/-- Job tables reachable at the shell prompt.  `launchFG` and `fgCmd`
pass through the foreground wait loop (the table evolves by handler
steps until the loop's exit condition holds); `launchBG` and `bgCmd`
return immediately. -/
inductive PromptReach : JobTable → Prop
  | start : PromptReach []
  | handler {t t2 : JobTable} : PromptReach t → HStep t t2 →
      PromptReach t2
  | launchBG {t : JobTable} (pid : Int) (cmd : String) :
      PromptReach t → PromptReach (add_job t pid JobState.BG cmd).1
  | launchFG {t t2 : JobTable} (pid : Int) (cmd : String) :
      PromptReach t →
      HReach (add_job t pid JobState.FG cmd).1 t2 →
      loopExitCond t2 = true → PromptReach t2
  | bgCmd {t : JobTable} (argc : Nat) (argv : List String) :
      PromptReach t → PromptReach (bg_builtin t argc argv).tbl
  | fgCmd {t : JobTable} (argc : Nat) (argv : List String)
      (evs : List (Int × Status)) (res : BuiltinRes) :
      PromptReach t → fg_builtin t argc argv evs = some res →
      PromptReach res.tbl

/-- Job tables observable at any instant: at the prompt, or at any
point during a foreground wait (after `eval` registered a foreground
job, or after the `fg` builtin set a job to Foreground). -/
inductive Reach : JobTable → Prop
  | prompt {t : JobTable} : PromptReach t → Reach t
  | midFG {t t2 : JobTable} (pid : Int) (cmd : String) :
      PromptReach t →
      HReach (add_job t pid JobState.FG cmd).1 t2 → Reach t2
  | midFg {t t2 : JobTable} (j : Int) :
      PromptReach t →
      HReach (job_set_state t j JobState.FG) t2 → Reach t2

/-! ### Concrete oracles and tables used in witnesses and
counterexamples -/

/-- A file system on which every `open` succeeds (for the program-launch
scenario: the program file exists and is readable, e.g. a data file
without execute permission, so `execve` fails but `open` does not). -/
def fsAllOk : FS := ⟨fun _ => OpenRes.ok, fun _ => OpenRes.ok⟩

/-- A file system on which every `open` fails with `ENOENT`. -/
def fsMissing : FS := ⟨fun _ => OpenRes.enoent, fun _ => OpenRes.enoent⟩

/-- A file system on which every `open` fails with a non-ENOENT error. -/
def fsEperm : FS := ⟨fun _ => OpenRes.eperm, fun _ => OpenRes.eperm⟩

/-- Two stopped jobs with pids 100 and 101.  No record has pid 2, but a
record with job id 2 exists, so the numeral 2 separates the claim's
resolution rule (bare numeral = pid) from the code's (job id first). -/
def c1tbl : JobTable :=
  [⟨1, 100, JobState.ST, "sleep 10 &"⟩,
   ⟨2, 101, JobState.ST, "sleep 20 &"⟩]

/-- A single stopped job with job id 12, for the `bg 12ab` scenario. -/
def c8tbl : JobTable := [⟨12, 300, JobState.ST, "sleep 30 &"⟩]

theorem job_set_state_map_jid (t : JobTable) (j : Int) (s : JobState) :
    (job_set_state t j s).map (fun r => r.jid) = t.map (fun r => r.jid) := by
  induction t with
  | nil => rfl
  | cons r rest ih =>
    simp only [job_set_state, List.map_cons] at *
    by_cases h : r.jid == j <;>
      simp [h, ih] <;>
      (intro a ha; by_cases h2 : a.jid = j <;> simp [h2])

theorem job_set_state_map_pid (t : JobTable) (j : Int) (s : JobState) :
    (job_set_state t j s).map (fun r => r.pid) = t.map (fun r => r.pid) := by
  induction t with
  | nil => rfl
  | cons r rest ih =>
    simp only [job_set_state, List.map_cons] at *
    by_cases h : r.jid == j <;>
      simp [h, ih] <;>
      (intro a ha; by_cases h2 : a.jid = j <;> simp [h2])

theorem mem_job_set_state {t : JobTable} {j : Int} {s : JobState} {r : JobRec}
    (h : r ∈ job_set_state t j s) :
    ∃ r0 ∈ t, r = if r0.jid == j then { r0 with state := s } else r0 := by
  rcases List.mem_map.1 h with ⟨r0, hr0, heq⟩
  exact ⟨r0, hr0, heq.symm⟩

theorem mem_delete_job {t : JobTable} {j : Int} {r : JobRec} :
    r ∈ delete_job t j ↔ r ∈ t ∧ r.jid ≠ j := by
  simp [delete_job, List.mem_filter, bne_iff_ne]

theorem delete_job_sublist (t : JobTable) (j : Int) :
    (delete_job t j).Sublist t :=
  List.filter_sublist t

theorem WF_job_set_state {t : JobTable} {j : Int} {s : JobState}
    (h : WF t) : WF (job_set_state t j s) := by
  refine ⟨?_, ?_⟩
  · intro r hr
    rcases mem_job_set_state hr with ⟨r0, hr0, heq⟩
    have := h.1 r0 hr0
    by_cases hj : r0.jid == j <;> simp [hj] at heq <;> simp [heq, this]
  · rw [job_set_state_map_jid]
    exact h.2

theorem WF_delete_job {t : JobTable} {j : Int} (h : WF t) :
    WF (delete_job t j) := by
  refine ⟨?_, ?_⟩
  · intro r hr
    exact h.1 r (mem_delete_job.1 hr).1
  · exact ((delete_job_sublist t j).map (fun r => r.jid)).nodup h.2

theorem PidsNodup_job_set_state {t : JobTable} {j : Int} {s : JobState}
    (h : PidsNodup t) : PidsNodup (job_set_state t j s) := by
  unfold PidsNodup
  rw [job_set_state_map_pid]
  exact h

theorem PidsNodup_delete_job {t : JobTable} {j : Int} (h : PidsNodup t) :
    PidsNodup (delete_job t j) := by
  unfold PidsNodup at h ⊢
  exact ((delete_job_sublist t j).map (fun r => r.pid)).nodup h

/-! ### countFG and fg_job lemmas -/

theorem countFG_nil : countFG [] = 0 := rfl

theorem countFG_cons (r : JobRec) (t : JobTable) :
    countFG (r :: t) =
      (if r.state = JobState.FG then 1 else 0) + countFG t := by
  by_cases h : r.state = JobState.FG <;>
    simp [countFG, List.filter_cons, h, Nat.add_comm]

theorem countFG_eq_zero_iff (t : JobTable) :
    countFG t = 0 ↔ ∀ r ∈ t, r.state ≠ JobState.FG := by
  simp [countFG, List.filter_eq_nil_iff]

theorem job_set_state_cons (r : JobRec) (t : JobTable) (j : Int)
    (s : JobState) :
    job_set_state (r :: t) j s =
      (if r.jid == j then { r with state := s } else r) ::
        job_set_state t j s := rfl

theorem countFG_set_state_le {s : JobState} (hs : s ≠ JobState.FG)
    (t : JobTable) (j : Int) :
    countFG (job_set_state t j s) ≤ countFG t := by
  induction t with
  | nil => simp [job_set_state]
  | cons r rest ih =>
    rw [job_set_state_cons, countFG_cons, countFG_cons]
    by_cases h : (r.jid == j) = true
    · rw [if_pos h]
      have h2 : ({ r with state := s } : JobRec).state = s := rfl
      rw [h2, if_neg hs]
      omega
    · rw [if_neg h]
      omega

theorem job_set_state_of_not_mem {t : JobTable} {j : Int}
    (h : ∀ r ∈ t, r.jid ≠ j) (s : JobState) : job_set_state t j s = t := by
  induction t with
  | nil => rfl
  | cons r rest ih =>
    have h1 : r.jid ≠ j := h r (List.mem_cons_self r rest)
    simp only [job_set_state, List.map_cons] at *
    rw [if_neg (by simp [h1])]
    rw [ih (fun a ha => h a (List.mem_cons_of_mem r ha))]

theorem countFG_set_state_FG_le {t : JobTable} {j : Int}
    (hnd : (t.map (fun r => r.jid)).Nodup) :
    countFG (job_set_state t j JobState.FG) ≤ countFG t + 1 := by
  induction t with
  | nil => simp [job_set_state]
  | cons r rest ih =>
    simp only [List.map_cons, List.nodup_cons] at hnd
    rw [job_set_state_cons, countFG_cons, countFG_cons]
    by_cases h : r.jid = j
    · rw [if_pos (show (r.jid == j) = true by simp [h])]
      have hrest : ∀ a ∈ rest, a.jid ≠ j := by
        intro a ha haj
        apply hnd.1
        rw [h, ← haj]
        exact List.mem_map.2 ⟨a, ha, rfl⟩
      rw [job_set_state_of_not_mem hrest]
      have h2 : ({ r with state := JobState.FG } : JobRec).state =
          JobState.FG := rfl
      rw [if_pos h2]
      omega
    · rw [if_neg (show ¬(r.jid == j) = true by simp [h])]
      have := ih hnd.2
      omega

theorem countFG_delete_le (t : JobTable) (j : Int) :
    countFG (delete_job t j) ≤ countFG t := by
  unfold countFG
  exact ((delete_job_sublist t j).filter _).length_le

theorem fg_job_eq_zero_iff {t : JobTable} (hpos : ∀ r ∈ t, 0 < r.jid) :
    fg_job t = 0 ↔ ∀ r ∈ t, r.state ≠ JobState.FG := by
  induction t with
  | nil => simp [fg_job]
  | cons r rest ih =>
    by_cases h : r.state = JobState.FG
    · have hr : 0 < r.jid := hpos r (List.mem_cons_self r rest)
      have hfind : (r :: rest).find? (fun x => x.state == JobState.FG) =
          some r := List.find?_cons_of_pos _ (by simp [h])
      simp only [fg_job, hfind]
      constructor
      · intro h0; omega
      · intro hall
        exact absurd h (hall r (List.mem_cons_self r rest))
    · have hfind : (r :: rest).find? (fun x => x.state == JobState.FG) =
          rest.find? (fun x => x.state == JobState.FG) :=
        List.find?_cons_of_neg _ (by simp [h])
      have hrec := ih (fun a ha => hpos a (List.mem_cons_of_mem r ha))
      simp only [fg_job, hfind] at hrec ⊢
      constructor
      · intro h0 a ha
        rcases List.mem_cons.1 ha with rfl | ha2
        · exact h
        · exact hrec.1 h0 a ha2
      · intro hall
        exact hrec.2 (fun a ha => hall a (List.mem_cons_of_mem r ha))

/-! ### Lookup lemmas -/

theorem job_exists_iff {t : JobTable} {j : Int} :
    job_exists t j = true ↔ ∃ r ∈ t, r.jid = j := by
  simp [job_exists]

theorem job_exists_eq_false_iff {t : JobTable} {j : Int} :
    job_exists t j = false ↔ ∀ r ∈ t, r.jid ≠ j := by
  simp [job_exists]

theorem job_get_state_eq_none_iff {t : JobTable} {j : Int} :
    job_get_state t j = none ↔ job_exists t j = false := by
  unfold job_get_state
  rw [job_exists_eq_false_iff]
  cases hf : t.find? (fun r => r.jid == j) with
  | some r =>
    simp only [reduceCtorEq, false_iff]
    intro hall
    have hr := List.find?_some hf
    have hm := List.mem_of_find?_eq_some hf
    exact hall r hm (by simpa using hr)
  | none =>
    simp only [true_iff]
    intro r hr hj
    have := List.find?_eq_none.1 hf r hr
    simp [hj] at this

theorem job_get_state_some {t : JobTable} {j : Int} {s : JobState}
    (h : job_get_state t j = some s) : ∃ r ∈ t, r.jid = j ∧ r.state = s := by
  unfold job_get_state at h
  cases hf : t.find? (fun r => r.jid == j) with
  | some r =>
    rw [hf] at h
    have hr := List.find?_some hf
    have hm := List.mem_of_find?_eq_some hf
    exact ⟨r, hm, by simpa using hr, by simpa using h⟩
  | none => rw [hf] at h; exact absurd h (by simp)

theorem job_get_state_of_mem_nodup {t : JobTable} {r : JobRec}
    (hnd : (t.map (fun r => r.jid)).Nodup) (hm : r ∈ t) :
    job_get_state t r.jid = some r.state := by
  induction t with
  | nil => cases hm
  | cons a rest ih =>
    simp only [List.map_cons, List.nodup_cons] at hnd
    rcases List.mem_cons.1 hm with rfl | hm2
    · unfold job_get_state
      rw [List.find?_cons_of_pos _ (by simp)]
    · have hne : a.jid ≠ r.jid := by
        intro he
        exact hnd.1 (he ▸ List.mem_map.2 ⟨r, hm2, rfl⟩)
      unfold job_get_state at ih ⊢
      rw [List.find?_cons_of_neg _ (by simp [hne])]
      exact ih hnd.2 hm2

theorem job_get_state_set_state_same (t : JobTable) (j : Int) (s : JobState) :
    job_get_state (job_set_state t j s) j =
      (job_get_state t j).map (fun _ => s) := by
  induction t with
  | nil => rfl
  | cons r rest ih =>
    rw [job_set_state_cons]
    by_cases h : (r.jid == j) = true
    · rw [if_pos h]
      unfold job_get_state
      rw [List.find?_cons_of_pos _ (by simpa using h),
        List.find?_cons_of_pos _ (by simpa using h)]
      rfl
    · rw [if_neg h]
      unfold job_get_state at ih ⊢
      rw [List.find?_cons_of_neg _ (by simpa using h),
        List.find?_cons_of_neg _ (by simpa using h)]
      exact ih

theorem job_get_state_set_state_ne {a j : Int} (hne : a ≠ j)
    (t : JobTable) (s : JobState) :
    job_get_state (job_set_state t a s) j = job_get_state t j := by
  induction t with
  | nil => rfl
  | cons r rest ih =>
    rw [job_set_state_cons]
    by_cases h : (r.jid == j) = true
    · have hra : ¬(r.jid == a) = true := by
        simp only [beq_iff_eq] at h ⊢
        rw [h]; exact fun he => hne he.symm
      rw [if_neg hra]
      unfold job_get_state
      rw [List.find?_cons_of_pos _ (by simpa using h),
        List.find?_cons_of_pos _ (by simpa using h)]
    · by_cases h2 : (r.jid == a) = true
      · rw [if_pos h2]
        unfold job_get_state at ih ⊢
        rw [List.find?_cons_of_neg _ (by simpa using h),
          List.find?_cons_of_neg _ (by simpa using h)]
        exact ih
      · rw [if_neg h2]
        unfold job_get_state at ih ⊢
        rw [List.find?_cons_of_neg _ (by simpa using h),
          List.find?_cons_of_neg _ (by simpa using h)]
        exact ih

theorem job_get_state_delete_same (t : JobTable) (j : Int) :
    job_get_state (delete_job t j) j = none := by
  rw [job_get_state_eq_none_iff, job_exists_eq_false_iff]
  intro r hr
  exact (mem_delete_job.1 hr).2

theorem jid_find_cons_pos (r : JobRec) (l : JobTable) (j : Int)
    (h : (r.jid == j) = true) :
    (r :: l).find? (fun x => x.jid == j) = some r :=
  List.find?_cons_of_pos _ h

theorem jid_find_cons_neg (r : JobRec) (l : JobTable) (j : Int)
    (h : ¬(r.jid == j) = true) :
    (r :: l).find? (fun x => x.jid == j) =
      l.find? (fun x => x.jid == j) :=
  List.find?_cons_of_neg _ h

theorem job_get_state_delete_ne {a j : Int} (hne : a ≠ j) (t : JobTable) :
    job_get_state (delete_job t a) j = job_get_state t j := by
  induction t with
  | nil => rfl
  | cons r rest ih =>
    by_cases h : (r.jid != a) = true
    · have hc : delete_job (r :: rest) a = r :: delete_job rest a := by
        simp [delete_job, List.filter_cons, h]
      rw [hc]
      unfold job_get_state at ih ⊢
      by_cases h2 : (r.jid == j) = true
      · rw [jid_find_cons_pos r (delete_job rest a) j h2,
          jid_find_cons_pos r rest j h2]
      · rw [jid_find_cons_neg r (delete_job rest a) j h2,
          jid_find_cons_neg r rest j h2]
        exact ih
    · have hc : delete_job (r :: rest) a = delete_job rest a := by
        simp only [delete_job, List.filter_cons]
        rw [if_neg h]
      rw [hc]
      have hra : r.jid = a := by simpa using h
      have hrj : ¬(r.jid == j) = true := by
        simp only [beq_iff_eq, hra]
        exact hne
      unfold job_get_state at ih ⊢
      rw [jid_find_cons_neg r rest j hrj]
      exact ih

/-! ### reapOne characterization and preservation -/

theorem reapOne_fst_stopped (t : JobTable) (p : Int) (s : Nat) :
    (reapOne t p (Status.stopped s)).1 =
      job_set_state t (job_from_pid t p) JobState.ST := rfl

theorem reapOne_fst_exited (t : JobTable) (p : Int) (c : Nat) :
    (reapOne t p (Status.exited c)).1 =
      delete_job t (job_from_pid t p) := rfl

theorem reapOne_fst_signaled (t : JobTable) (p : Int) (s : Nat) :
    (reapOne t p (Status.signaled s)).1 =
      delete_job t (job_from_pid t p) := rfl

theorem WF_reapOne {t : JobTable} (h : WF t) (p : Int) (st : Status) :
    WF (reapOne t p st).1 := by
  cases st with
  | exited c => rw [reapOne_fst_exited]; exact WF_delete_job h
  | signaled s => rw [reapOne_fst_signaled]; exact WF_delete_job h
  | stopped s => rw [reapOne_fst_stopped]; exact WF_job_set_state h

theorem PidsNodup_reapOne {t : JobTable} (h : PidsNodup t) (p : Int)
    (st : Status) : PidsNodup (reapOne t p st).1 := by
  cases st with
  | exited c => rw [reapOne_fst_exited]; exact PidsNodup_delete_job h
  | signaled s => rw [reapOne_fst_signaled]; exact PidsNodup_delete_job h
  | stopped s => rw [reapOne_fst_stopped]; exact PidsNodup_job_set_state h

theorem countFG_reapOne_le {t : JobTable} (p : Int) (st : Status) :
    countFG (reapOne t p st).1 ≤ countFG t := by
  cases st with
  | exited c => rw [reapOne_fst_exited]; exact countFG_delete_le t _
  | signaled s => rw [reapOne_fst_signaled]; exact countFG_delete_le t _
  | stopped s =>
    rw [reapOne_fst_stopped]
    exact countFG_set_state_le (by simp) t _

theorem FGonly_set_state_ST {t : JobTable} {j a : Int}
    (h : FGonly t j) : FGonly (job_set_state t a JobState.ST) j := by
  intro r hr hFG
  rcases mem_job_set_state hr with ⟨r0, hr0, heq⟩
  by_cases hj : (r0.jid == a) = true
  · rw [if_pos hj] at heq
    rw [heq] at hFG
    exact absurd hFG (by simp)
  · rw [if_neg hj] at heq
    exact heq ▸ h r0 hr0 (heq ▸ hFG)

theorem FGonly_delete {t : JobTable} {j a : Int} (h : FGonly t j) :
    FGonly (delete_job t a) j := by
  intro r hr hFG
  exact h r (mem_delete_job.1 hr).1 hFG

theorem FGonly_reapOne {t : JobTable} {j : Int} (h : FGonly t j)
    (p : Int) (st : Status) : FGonly (reapOne t p st).1 j := by
  cases st with
  | exited c => rw [reapOne_fst_exited]; exact FGonly_delete h
  | signaled s => rw [reapOne_fst_signaled]; exact FGonly_delete h
  | stopped s => rw [reapOne_fst_stopped]; exact FGonly_set_state_ST h

theorem JStates_set_state_ST {t : JobTable} {j a : Int}
    (h : JStates t j) : JStates (job_set_state t a JobState.ST) j := by
  by_cases hj : a = j
  · subst hj
    rw [JStates, job_get_state_set_state_same]
    rcases h with h | h | h <;> rw [h] <;> simp
  · rw [JStates, job_get_state_set_state_ne hj]
    exact h

theorem JStates_delete {t : JobTable} {j a : Int} (h : JStates t j) :
    JStates (delete_job t a) j := by
  by_cases hj : a = j
  · subst hj
    rw [JStates, job_get_state_delete_same]
    simp
  · rw [JStates, job_get_state_delete_ne hj]
    exact h

theorem JStates_reapOne {t : JobTable} {j : Int} (h : JStates t j)
    (p : Int) (st : Status) : JStates (reapOne t p st).1 j := by
  cases st with
  | exited c => rw [reapOne_fst_exited]; exact JStates_delete h
  | signaled s => rw [reapOne_fst_signaled]; exact JStates_delete h
  | stopped s => rw [reapOne_fst_stopped]; exact JStates_set_state_ST h

/-! ### The loop exit condition -/

theorem fg_job_find {t : JobTable} :
    fg_job t ≠ 0 →
      ∃ r ∈ t, r.state = JobState.FG ∧ r.jid = fg_job t := by
  unfold fg_job
  cases hf : t.find? (fun r => r.state == JobState.FG) with
  | some r =>
    intro _
    exact ⟨r, List.mem_of_find?_eq_some hf,
      by simpa using List.find?_some hf, rfl⟩
  | none => intro h; exact absurd rfl h

theorem countFG_zero_of_exit {t : JobTable} (hWF : WF t)
    (hex : loopExitCond t = true) : countFG t = 0 := by
  unfold loopExitCond at hex
  rcases Bool.or_eq_true_iff.1 hex with h | h
  · have h2 : ¬ fg_job t > 0 := by simpa using h
    have h0 : fg_job t = 0 := by
      by_contra hne
      rcases fg_job_find hne with ⟨r, hm, _, hj⟩
      have := hWF.1 r hm
      omega
    exact (countFG_eq_zero_iff t).2 ((fg_job_eq_zero_iff hWF.1).1 h0)
  · -- impossible: the foreground job's recorded state is FG, not ST
    exfalso
    have hst : job_get_state t (fg_job t) = some JobState.ST := by
      simpa using h
    rcases job_get_state_some hst with ⟨r, hm, hj, hs⟩
    by_cases h0 : fg_job t = 0
    · have hne : job_exists t (fg_job t) = false := by
        rw [job_exists_eq_false_iff]
        intro r2 hm2
        have := hWF.1 r2 hm2
        omega
      rw [job_get_state_eq_none_iff.2 hne] at hst
      exact absurd hst (by simp)
    · rcases fg_job_find h0 with ⟨r2, hm2, hs2, hj2⟩
      have := job_get_state_of_mem_nodup hWF.2 hm2
      rw [hj2, hst] at this
      rw [hs2] at this
      exact absurd this (by simp)

theorem loopExit_iff {t : JobTable} {j : Int} (hWF : WF t)
    (hFG : FGonly t j) (hJ : JStates t j) :
    loopExitCond t = true ↔
      (job_exists t j = false ∨
        job_get_state t j = some JobState.ST) := by
  constructor
  · intro hex
    have h0 := countFG_zero_of_exit hWF hex
    have hnofg := (countFG_eq_zero_iff t).1 h0
    rcases hJ with h | h | h
    · rcases job_get_state_some h with ⟨r, hm, hj, hs⟩
      exact absurd hs (by exact fun hh => hnofg r hm hh)
    · exact Or.inr h
    · exact Or.inl (job_get_state_eq_none_iff.1 h)
  · intro hcase
    have hnofg : ∀ r ∈ t, r.state ≠ JobState.FG := by
      intro r hm hs
      have hjid := hFG r hm hs
      rcases hcase with h | h
      · rw [job_exists_eq_false_iff] at h
        exact h r hm hjid
      · have := job_get_state_of_mem_nodup hWF.2 hm
        rw [hjid, h] at this
        rw [hs] at this
        exact absurd this (by simp)
    unfold loopExitCond
    rw [(fg_job_eq_zero_iff hWF.1).2 hnofg]
    simp

/-! ### waitRun lemmas -/

theorem waitRun_preserve {P : JobTable → Prop}
    (hP : ∀ t p st, P t → P (reapOne t p st).1) {ps : Bool} :
    ∀ {evs : List (Int × Status)} {t t2 : JobTable} {out : List String},
      P t → waitRun ps t evs = some (t2, out) → P t2 := by
  intro evs
  induction evs with
  | nil =>
    intro t t2 out hPt h
    unfold waitRun at h
    by_cases h1 : fg_job t > 0
    · rw [if_pos h1] at h
      by_cases h2 : job_get_state t (fg_job t) = some JobState.ST
      · rw [if_pos h2] at h
        simp only [Option.some.injEq, Prod.mk.injEq] at h
        exact h.1 ▸ hPt
      · rw [if_neg h2] at h
        exact absurd h (by simp)
    · rw [if_neg h1] at h
      simp only [Option.some.injEq, Prod.mk.injEq] at h
      exact h.1 ▸ hPt
  | cons e rest ih =>
    intro t t2 out hPt h
    unfold waitRun at h
    by_cases h1 : fg_job t > 0
    · rw [if_pos h1] at h
      by_cases h2 : job_get_state t (fg_job t) = some JobState.ST
      · rw [if_pos h2] at h
        simp only [Option.some.injEq, Prod.mk.injEq] at h
        exact h.1 ▸ hPt
      · rw [if_neg h2] at h
        rcases e with ⟨p, st⟩
        simp only at h
        cases hw : waitRun ps (reapOne t p st).1 rest with
        | some pr =>
          rcases pr with ⟨t3, out3⟩
          rw [hw] at h
          simp only [Option.some.injEq, Prod.mk.injEq] at h
          exact h.1 ▸ ih (hP t p st hPt) hw
        | none =>
          rw [hw] at h
          exact absurd h (by simp)
    · rw [if_neg h1] at h
      simp only [Option.some.injEq, Prod.mk.injEq] at h
      exact h.1 ▸ hPt

theorem waitRun_some_exit {ps : Bool} :
    ∀ {evs : List (Int × Status)} {t t2 : JobTable} {out : List String},
      waitRun ps t evs = some (t2, out) → loopExitCond t2 = true := by
  intro evs
  induction evs with
  | nil =>
    intro t t2 out h
    unfold waitRun at h
    by_cases h1 : fg_job t > 0
    · rw [if_pos h1] at h
      by_cases h2 : job_get_state t (fg_job t) = some JobState.ST
      · rw [if_pos h2] at h
        simp only [Option.some.injEq, Prod.mk.injEq] at h
        rw [← h.1]
        unfold loopExitCond
        rw [h2]
        simp
      · rw [if_neg h2] at h
        exact absurd h (by simp)
    · rw [if_neg h1] at h
      simp only [Option.some.injEq, Prod.mk.injEq] at h
      rw [← h.1]
      unfold loopExitCond
      simp only [h1]
      simp
  | cons e rest ih =>
    intro t t2 out h
    unfold waitRun at h
    by_cases h1 : fg_job t > 0
    · rw [if_pos h1] at h
      by_cases h2 : job_get_state t (fg_job t) = some JobState.ST
      · rw [if_pos h2] at h
        simp only [Option.some.injEq, Prod.mk.injEq] at h
        rw [← h.1]
        unfold loopExitCond
        rw [h2]
        simp
      · rw [if_neg h2] at h
        rcases e with ⟨p, st⟩
        simp only at h
        cases hw : waitRun ps (reapOne t p st).1 rest with
        | some pr =>
          rcases pr with ⟨t3, out3⟩
          rw [hw] at h
          simp only [Option.some.injEq, Prod.mk.injEq] at h
          exact h.1 ▸ ih hw
        | none =>
          rw [hw] at h
          exact absurd h (by simp)
    · rw [if_neg h1] at h
      simp only [Option.some.injEq, Prod.mk.injEq] at h
      rw [← h.1]
      unfold loopExitCond
      simp only [h1]
      simp

theorem job_exists_eq_any (t : JobTable) (j : Int) :
    job_exists t j =
      (t.map (fun r => r.jid)).any (fun x => x == j) := by
  induction t with
  | nil => rfl
  | cons r rest ih =>
    simp only [job_exists, List.any_cons, List.map_cons] at *
    rw [ih]

theorem job_exists_set_state (t : JobTable) (a : Int) (s : JobState)
    (j : Int) :
    job_exists (job_set_state t a s) j = job_exists t j := by
  rw [job_exists_eq_any, job_exists_eq_any, job_set_state_map_jid]

/-! ### Claim C2 -/

/-- Claim C2: the foreground wait loop (entered after launching a
foreground job in `eval`, or after resuming one via the `fg` builtin)
terminates exactly when the foreground job no longer exists in the job
table (it exited) or its state has transitioned to Stopped; in the
Stopped case control returns with the job's record still present. -/
theorem c2_wait_loop_exit (j : Int) :
    (∀ t : JobTable, WF t → FGonly t j → JStates t j →
      (loopExitCond t = true ↔
        (job_exists t j = false ∨
          job_get_state t j = some JobState.ST))) ∧
    (∀ (ps : Bool) (t t2 : JobTable) (evs : List (Int × Status))
        (out : List String),
      WF t → FGonly t j → JStates t j →
      waitRun ps t evs = some (t2, out) →
      loopExitCond t2 = true ∧
        (job_exists t2 j = false ∨
          job_get_state t2 j = some JobState.ST) ∧
        (job_get_state t2 j = some JobState.ST →
          job_exists t2 j = true)) := by
  constructor
  · intro t hWF hFG hJ
    exact loopExit_iff hWF hFG hJ
  · intro ps t t2 evs out hWF hFG hJ hrun
    have hWF2 : WF t2 :=
      @waitRun_preserve WF (fun u p st h => WF_reapOne h p st) ps evs t t2
        out hWF hrun
    have hFG2 : FGonly t2 j :=
      @waitRun_preserve (fun u => FGonly u j)
        (fun u p st h => FGonly_reapOne h p st) ps evs t t2 out hFG hrun
    have hJ2 : JStates t2 j :=
      @waitRun_preserve (fun u => JStates u j)
        (fun u p st h => JStates_reapOne h p st) ps evs t t2 out hJ hrun
    have hexit := waitRun_some_exit hrun
    refine ⟨hexit, (loopExit_iff hWF2 hFG2 hJ2).1 hexit, ?_⟩
    intro hST
    rcases job_get_state_some hST with ⟨r, hm, hj, _⟩
    exact job_exists_iff.2 ⟨r, hm, hj⟩

/-- Witness for C2 at the concrete run where `sleep 5` is stopped by
SIGTSTP: the loop exits, the job's record is kept, in state `ST`. -/
theorem c2_wait_loop_exit_witness :
    loopExitCond [(⟨1, 100, JobState.ST, "sleep 5"⟩ : JobRec)] = true ∧
      (job_exists [(⟨1, 100, JobState.ST, "sleep 5"⟩ : JobRec)] 1 = false ∨
        job_get_state [(⟨1, 100, JobState.ST, "sleep 5"⟩ : JobRec)] 1 =
          some JobState.ST) ∧
      (job_get_state [(⟨1, 100, JobState.ST, "sleep 5"⟩ : JobRec)] 1 =
          some JobState.ST →
        job_exists [(⟨1, 100, JobState.ST, "sleep 5"⟩ : JobRec)] 1 =
          true) :=
  (c2_wait_loop_exit 1).2 true [⟨1, 100, JobState.FG, "sleep 5"⟩]
    [⟨1, 100, JobState.ST, "sleep 5"⟩] [(100, Status.stopped 20)]
    ["Job [1] (100) stopped by signal 20"]
    (by unfold WF; decide) (by unfold FGonly; decide)
    (by unfold JStates; decide) (by decide)

/-! ### Claim C4 -/

/-- Claim C4: for every child reaped by the SIGCHLD handler whose pid is
known to the job table: terminated-by-signal yields the termination
notice (and the record is removed, being a non-stop status);
stopped-by-signal yields the stop notice and the state is set to `ST`
with the record kept; a normal exit removes the record with no output. -/
theorem c4_sigchld_handler_cases (t : JobTable) (p : Int) (st : Status)
    (hknown : job_from_pid t p ≠ 0) :
    (∀ s, st = Status.signaled s →
      (reapOne t p st).2 =
        [s!"Job [{job_from_pid t p}] ({p}) terminated by signal {s}"] ∧
      (reapOne t p st).1 = delete_job t (job_from_pid t p) ∧
      job_exists (reapOne t p st).1 (job_from_pid t p) = false) ∧
    (∀ s, st = Status.stopped s →
      (reapOne t p st).2 =
        [s!"Job [{job_from_pid t p}] ({p}) stopped by signal {s}"] ∧
      (reapOne t p st).1 =
        job_set_state t (job_from_pid t p) JobState.ST ∧
      job_get_state (reapOne t p st).1 (job_from_pid t p) =
        (job_get_state t (job_from_pid t p)).map
          (fun _ => JobState.ST) ∧
      job_exists (reapOne t p st).1 (job_from_pid t p) =
        job_exists t (job_from_pid t p)) ∧
    (∀ c, st = Status.exited c →
      (reapOne t p st).2 = [] ∧
      (reapOne t p st).1 = delete_job t (job_from_pid t p)) := by
  refine ⟨?_, ?_, ?_⟩
  · rintro s rfl
    refine ⟨?_, rfl, ?_⟩
    · show (if job_from_pid t p ≠ 0 then _ else []) ++ [] = _
      rw [if_pos hknown, List.append_nil]
    · rw [reapOne_fst_signaled, job_exists_eq_false_iff]
      intro r hr
      exact (mem_delete_job.1 hr).2
  · rintro s rfl
    refine ⟨rfl, rfl, ?_, ?_⟩
    · rw [reapOne_fst_stopped]
      exact job_get_state_set_state_same t _ JobState.ST
    · rw [reapOne_fst_stopped, job_exists_set_state]
  · rintro c rfl
    exact ⟨rfl, rfl⟩

/-- Witness for C4: a background `sleep` with job id 1, pid 100, killed
by SIGINT (signal 2): the termination notice is printed and the record
is removed. -/
theorem c4_sigchld_handler_cases_witness :
    (reapOne [(⟨1, 100, JobState.BG, "sleep 5 &"⟩ : JobRec)] 100
        (Status.signaled 2)).2 =
      ["Job [1] (100) terminated by signal 2"] ∧
    (reapOne [(⟨1, 100, JobState.BG, "sleep 5 &"⟩ : JobRec)] 100
        (Status.signaled 2)).1 =
      delete_job [(⟨1, 100, JobState.BG, "sleep 5 &"⟩ : JobRec)] 1 ∧
    job_exists
      (reapOne [(⟨1, 100, JobState.BG, "sleep 5 &"⟩ : JobRec)] 100
        (Status.signaled 2)).1 1 = false := by
  have h := (c4_sigchld_handler_cases
    [(⟨1, 100, JobState.BG, "sleep 5 &"⟩ : JobRec)] 100
    (Status.signaled 2) (by decide)).1 2 rfl
  exact ⟨by rw [h.1]; decide, h.2.1, h.2.2⟩

/-! ### Claim C10 -/

/-- Claim C10: a child whose program replacement failed terminates with
exit status 0; the parent's SIGCHLD handler reaps that as a normal exit,
printing nothing and removing the job's record from the table. -/
theorem c10_exec_failure_reaped_silently (fs : FS) (prog : String)
    (t : JobTable) (p : Int) :
    (child_exec_failure fs prog).2 = 0 ∧
    (reapOne t p (Status.exited 0)).2 = [] ∧
    (reapOne t p (Status.exited 0)).1 =
      delete_job t (job_from_pid t p) :=
  ⟨rfl, rfl, rfl⟩

/-! ### Claim C6 -/

/-- Claim C6 counterexample: the program file exists and is readable
(so `open` succeeds) but `execve` failed — e.g. a file without execute
permission.  The child prints nothing at all, refuting the claim that a
failed replacement always reports one of the two messages. -/
theorem c6_counterexample :
    (child_exec_failure fsAllOk "./script").1 = [] ∧
    (child_exec_failure fsAllOk "./script").1 ≠
      ["./script: No such file or directory"] ∧
    (child_exec_failure fsAllOk "./script").1 ≠
      ["./script: Permission denied"] := by
  refine ⟨rfl, ?_, ?_⟩ <;> decide

/-- Claim C6 amended: when the replacement fails the child always
terminates (with status 0) — the parent shell is never terminated — and
it prints the errno-selected report for the program name exactly when
re-opening the program for reading also fails; a readable program file
produces no report at all. -/
theorem c6_exec_failure_report (fs : FS) (prog : String) :
    ((child_exec_failure fs prog).1 =
        [openFailMsg prog (fs.openRead prog)] ↔
      fs.openRead prog ≠ OpenRes.ok) ∧
    (child_exec_failure fs prog).2 = 0 := by
  constructor
  · cases h : fs.openRead prog with
    | ok =>
      simp only [child_exec_failure, h]
      constructor
      · intro hh
        exact absurd hh (by simp)
      · intro hh
        exact absurd rfl hh
    | enoent =>
      simp only [child_exec_failure, h, openFailMsg]
      constructor
      · intro _
        simp
      · intro _
        rfl
    | eperm =>
      simp only [child_exec_failure, h, openFailMsg]
      constructor
      · intro _
        simp
      · intro _
        rw [if_neg (by decide)]
  · rfl

/-! ### Claim C5 -/

/-- Claim C5: for a non-builtin command whose redirection open fails,
no child is forked and no job-table entry is created; the single report
is `<name>: No such file or directory` for ENOENT and
`<name>: Permission denied` otherwise, and nothing else changes. -/
theorem c5_redirection_failure (t : JobTable) (inp : EvalIn) (fs : FS)
    (newPid : Int) (evs : List (Int × Status))
    (hparse : inp.parse = ParseRes.fg ∨ inp.parse = ParseRes.bg) :
    (∀ name r, inp.infile = some name → fs.openRead name = r →
      r ≠ OpenRes.ok →
      eval_model t inp fs newPid evs =
        ⟨t, [openFailMsg name r], false, false⟩) ∧
    (∀ name r, inp.outfile = some name →
      (inp.infile = none ∨
        ∃ iname, inp.infile = some iname ∧
          fs.openRead iname = OpenRes.ok) →
      fs.openWrite name = r → r ≠ OpenRes.ok →
      eval_model t inp fs newPid evs =
        ⟨t, [openFailMsg name r], false, false⟩) := by
  have hpar : ¬(inp.parse = ParseRes.error ∨ inp.parse = ParseRes.empty) := by
    rcases hparse with h | h <;> rw [h] <;> simp
  constructor
  · intro name r hin hr hne
    have hredir : redirFail fs inp = some (openFailMsg name r) := by
      cases r with
      | ok => exact absurd rfl hne
      | enoent => simp [redirFail, hin, hr]
      | eperm => simp [redirFail, hin, hr]
    unfold eval_model
    rw [if_neg hpar, hredir]
  · intro name r hout hinok hwr hne
    have hredir : redirFail fs inp = some (openFailMsg name r) := by
      rcases hinok with hnone | ⟨iname, hisome, hiok⟩
      · cases r with
        | ok => exact absurd rfl hne
        | enoent => simp [redirFail, hnone, hout, hwr]
        | eperm => simp [redirFail, hnone, hout, hwr]
      · cases r with
        | ok => exact absurd rfl hne
        | enoent => simp [redirFail, hisome, hiok, hout, hwr]
        | eperm => simp [redirFail, hisome, hiok, hout, hwr]
    unfold eval_model
    rw [if_neg hpar, hredir]

/-- Witness for C5: `/bin/cat < in.txt` with `in.txt` missing: the
table stays empty, the exact ENOENT report is printed, no fork. -/
theorem c5_redirection_failure_witness :
    eval_model [] ⟨ParseRes.fg, some "in.txt", none, "/bin/cat",
        "/bin/cat < in.txt"⟩ fsMissing 100 [] =
      ⟨[], ["in.txt: No such file or directory"], false, false⟩ := by
  have h := (c5_redirection_failure [] ⟨ParseRes.fg, some "in.txt", none,
    "/bin/cat", "/bin/cat < in.txt"⟩ fsMissing 100 [] (Or.inl rfl)).1
    "in.txt" OpenRes.enoent rfl rfl (by decide)
  exact h.trans (by decide)

/-! ### Claim C1 -/

/-- Claim C1 counterexample: in `c1tbl` no record has pid 2, yet
`bg 2` announces and re-states job id 2 instead of reporting that no
job has process id 2; and `bg %100` resolves to job 1 through the pid
fallback although no job id 100 exists.  Both refute the rule "bare
numeral names a process id, `%`-numeral names a job id". -/
theorem c1_counterexample :
    job_from_pid c1tbl 2 = 0 ∧
    (bg_builtin c1tbl 2 ["bg", "2"]).resolved = some 2 ∧
    (bg_builtin c1tbl 2 ["bg", "2"]).out = ["[2] (101) sleep 20 &"] ∧
    (bg_builtin c1tbl 2 ["bg", "2"]).out ≠ ["2: No such job"] ∧
    (bg_builtin c1tbl 2 ["bg", "2"]).tbl ≠ c1tbl ∧
    job_exists c1tbl 100 = false ∧
    (bg_builtin c1tbl 2 ["bg", "%100"]).resolved = some 1 := by
  decide

theorem bg_builtin_resolves_jid (t : JobTable) (arg : String)
    (hne : atoi (stripMarker arg) ≠ 0)
    (hex : job_exists t (atoi (stripMarker arg)) = true) :
    bg_builtin t 2 ["bg", arg] =
      ⟨job_set_state t (atoi (stripMarker arg)) JobState.BG,
        [s!"[{atoi (stripMarker arg)}] ({job_get_pid t (atoi (stripMarker arg))}) {job_get_cmdline t (atoi (stripMarker arg))}"],
        [(job_get_pid t (atoi (stripMarker arg)), SIGCONT)],
        some (atoi (stripMarker arg))⟩ := by
  simp [bg_builtin, hne, hex]

theorem bg_builtin_resolves_pid (t : JobTable) (arg : String)
    (hne : atoi (stripMarker arg) ≠ 0)
    (hex : job_exists t (atoi (stripMarker arg)) = false)
    (hfp : job_from_pid t (atoi (stripMarker arg)) ≠ 0) :
    bg_builtin t 2 ["bg", arg] =
      ⟨job_set_state t (job_from_pid t (atoi (stripMarker arg)))
          JobState.BG,
        [s!"[{job_from_pid t (atoi (stripMarker arg))}] ({atoi (stripMarker arg)}) {job_get_cmdline t (job_from_pid t (atoi (stripMarker arg)))}"],
        [(atoi (stripMarker arg), SIGCONT)],
        some (job_from_pid t (atoi (stripMarker arg)))⟩ := by
  simp [bg_builtin, hne, hex, hfp]

/-- Claim C1 amended: bg and fg strip an optional `%` marker and
resolve the numeral first as a job id and only then, as a fallback, as
a process id; the marker does not select between the two.  The round
trip holds whenever the pid of job 1 is not itself a live job id:
`bg %1` and `bg <pid-of-job-1>` then produce the identical result
(table, output, signal, resolution). -/
theorem c1_amended_resolution (t : JobTable) (arg : String) (ps : String)
    (p : Int) (evs : List (Int × Status)) :
    (atoi (stripMarker arg) ≠ 0 →
      job_exists t (atoi (stripMarker arg)) = true →
      (bg_builtin t 2 ["bg", arg]).resolved =
        some (atoi (stripMarker arg))) ∧
    (atoi (stripMarker arg) ≠ 0 →
      job_exists t (atoi (stripMarker arg)) = false →
      job_from_pid t (atoi (stripMarker arg)) ≠ 0 →
      (bg_builtin t 2 ["bg", arg]).resolved =
        some (job_from_pid t (atoi (stripMarker arg)))) ∧
    (job_exists t 1 = true → job_get_pid t 1 = p → p ≠ 0 →
      job_exists t p = false → job_from_pid t p = 1 →
      stripMarker ps = ps → atoi ps = p →
      bg_builtin t 2 ["bg", "%1"] = bg_builtin t 2 ["bg", ps]) ∧
    (atoi (stripMarker arg) ≠ 0 →
      job_exists t (atoi (stripMarker arg)) = true →
      ∀ res, fg_builtin t 2 ["fg", arg] evs = some res →
        res.resolved = some (atoi (stripMarker arg))) ∧
    (atoi (stripMarker arg) ≠ 0 →
      job_exists t (atoi (stripMarker arg)) = false →
      job_from_pid t (atoi (stripMarker arg)) ≠ 0 →
      ∀ res, fg_builtin t 2 ["fg", arg] evs = some res →
        res.resolved =
          some (job_from_pid t (atoi (stripMarker arg)))) := by
  refine ⟨?_, ?_, ?_, ?_, ?_⟩
  · intro hne hex
    simp [bg_builtin, hne, hex]
  · intro hne hex hfp
    simp [bg_builtin, hne, hex, hfp]
  · intro hex1 hpid hp0 hexp hfp hstrip hatoi
    have e1 : atoi (stripMarker "%1") = (1 : Int) := by decide
    have e2 : atoi (stripMarker ps) = p := by rw [hstrip, hatoi]
    have hL := bg_builtin_resolves_jid t "%1"
      (by rw [e1]; decide) (by rw [e1]; exact hex1)
    rw [e1] at hL
    have hR := bg_builtin_resolves_pid t ps
      (by rw [e2]; exact hp0) (by rw [e2]; exact hexp)
      (by rw [e2, hfp]; decide)
    rw [e2, hfp] at hR
    rw [hL, hR, hpid]
  · intro hne hex res hres
    rcases hw : waitRun false
        (job_set_state t (atoi (stripMarker arg)) JobState.FG) evs
        with _ | pr
    · simp [fg_builtin, hne, hex, hw] at hres
    · rcases pr with ⟨t2, out⟩
      simp [fg_builtin, hne, hex, hw] at hres
      rw [← hres]
  · intro hne hex hfp res hres
    rcases hw : waitRun false
        (job_set_state t (job_from_pid t (atoi (stripMarker arg)))
          JobState.FG) evs with _ | pr
    · simp [fg_builtin, hne, hex, hfp, hw] at hres
    · rcases pr with ⟨t2, out⟩
      simp [fg_builtin, hne, hex, hfp, hw] at hres
      rw [← hres]

/-- Witness for the amended C1 at `c1tbl` (job 1, pid 100): `bg %1` and
`bg 100` yield the identical result, and `fg 2` resolves the live job
id 2 (job-id precedence) before any pid interpretation. -/
theorem c1_amended_resolution_witness :
    (bg_builtin c1tbl 2 ["bg", "%1"] =
      bg_builtin c1tbl 2 ["bg", "100"]) ∧
    (fg_builtin c1tbl 2 ["fg", "2"] [(101, Status.signaled 2)]).map
      (fun res => res.resolved) = some (some 2) := by
  constructor
  · exact (c1_amended_resolution c1tbl "%1" "100" 100 []).2.2.1
      (by decide) (by decide) (by decide) (by decide) (by decide)
      (by decide) (by decide)
  · have hres : fg_builtin c1tbl 2 ["fg", "2"]
        [(101, Status.signaled 2)] =
        some ⟨[⟨1, 100, JobState.ST, "sleep 10 &"⟩],
          ["Job [2] (101) terminated by signal 2"], [(101, 18)],
          some 2⟩ := by decide
    rw [hres]
    exact congrArg some ((c1_amended_resolution c1tbl "2" "100" 100
      [(101, Status.signaled 2)]).2.2.2.1 (by decide) (by decide)
      _ hres)

/-! ### Claim C8 -/

/-- Claim C8 counterexample: `12ab` is not a numeral, yet `bg 12ab`
does not print the user-error message: `atoi` reads the leading digits,
so on an empty table it reports `12ab: No such job`, and with a live
job id 12 it actually mutates that job's state. -/
theorem c8_counterexample :
    atoi (stripMarker "12ab") = 12 ∧
    (bg_builtin [] 2 ["bg", "12ab"]).out = ["12ab: No such job"] ∧
    (bg_builtin [] 2 ["bg", "12ab"]).out ≠
      ["bg: argument must be a PID or %jobid"] ∧
    (bg_builtin c8tbl 2 ["bg", "12ab"]).tbl ≠ c8tbl ∧
    (bg_builtin c8tbl 2 ["bg", "12ab"]).resolved = some 12 := by
  decide

/-- Claim C8 amended: a missing argument prints
`<builtin> command requires PID or %jobid argument`; an argument whose
`atoi` parse (after stripping an optional `%`) yields 0 — no leading
digits at all, or the literal 0 — prints
`<builtin>: argument must be a PID or %jobid`; both leave the table
unchanged.  An argument with leading digits is interpreted as that
leading number even when followed by other characters.  A job or
process id of exactly 0 can never be referenced by bg or fg. -/
theorem c8_invalid_argument (t : JobTable) (argv : List String)
    (arg : String) (evs : List (Int × Status)) :
    (bg_builtin t 1 argv =
      ⟨t, ["bg command requires PID or %jobid argument"], [], none⟩) ∧
    (fg_builtin t 1 argv evs =
      some ⟨t, ["fg command requires PID or %jobid argument"], [],
        none⟩) ∧
    (atoi (stripMarker arg) = 0 →
      bg_builtin t 2 ["bg", arg] =
        ⟨t, ["bg: argument must be a PID or %jobid"], [], none⟩) ∧
    (atoi (stripMarker arg) = 0 →
      fg_builtin t 2 ["fg", arg] evs =
        some ⟨t, ["fg: argument must be a PID or %jobid"], [], none⟩) ∧
    (∀ (a : String) (argc : Nat),
      (bg_builtin t argc ["bg", a]).resolved ≠ some 0) ∧
    (∀ (a : String) (argc : Nat) (res : BuiltinRes),
      fg_builtin t argc ["fg", a] evs = some res →
      res.resolved ≠ some 0) := by
  refine ⟨?_, ?_, ?_, ?_, ?_, ?_⟩
  · simp [bg_builtin]
  · simp [fg_builtin]
  · intro h0
    simp [bg_builtin, h0]
  · intro h0
    simp [fg_builtin, h0]
  · intro a argc
    by_cases h1 : argc = 1
    · simp [bg_builtin, h1]
    · by_cases h2 : atoi (stripMarker a) = 0
      · simp [bg_builtin, h1, h2]
      · by_cases h3 : job_exists t (atoi (stripMarker a)) = true
        · simp [bg_builtin, h1, h2, h3]
        · have h3f : job_exists t (atoi (stripMarker a)) = false :=
            Bool.not_eq_true _ ▸ (Bool.eq_false_iff.2 h3)
          by_cases h4 : job_from_pid t (atoi (stripMarker a)) = 0
          · simp [bg_builtin, h1, h2, h3f, h4]
          · simp [bg_builtin, h1, h2, h3f, h4]
  · intro a argc res hres
    by_cases h1 : argc = 1
    · simp [fg_builtin, h1] at hres
      rw [← hres]
      simp
    · by_cases h2 : atoi (stripMarker a) = 0
      · simp [fg_builtin, h1, h2] at hres
        rw [← hres]
        simp
      · by_cases h3 : job_exists t (atoi (stripMarker a)) = true
        · rcases hw : waitRun false
            (job_set_state t (atoi (stripMarker a)) JobState.FG) evs
            with _ | pr
          · simp [fg_builtin, h1, h2, h3, hw] at hres
          · rcases pr with ⟨t2, out⟩
            simp [fg_builtin, h1, h2, h3, hw] at hres
            rw [← hres]
            simp [h2]
        · have h3f : job_exists t (atoi (stripMarker a)) = false :=
            Bool.not_eq_true _ ▸ (Bool.eq_false_iff.2 h3)
          by_cases h4 : job_from_pid t (atoi (stripMarker a)) = 0
          · simp [fg_builtin, h1, h2, h3f, h4] at hres
            rw [← hres]
            simp
          · rcases hw : waitRun false
              (job_set_state t (job_from_pid t (atoi (stripMarker a)))
                JobState.FG) evs with _ | pr
            · simp [fg_builtin, h1, h2, h3f, h4, hw] at hres
            · rcases pr with ⟨t2, out⟩
              simp [fg_builtin, h1, h2, h3f, h4, hw] at hres
              rw [← hres]
              simp [h4]

/-- Witness for C8: `bg` with no argument, and `bg xyz` (no digits). -/
theorem c8_invalid_argument_witness :
    bg_builtin [] 1 ["bg"] =
      ⟨[], ["bg command requires PID or %jobid argument"], [], none⟩ ∧
    bg_builtin [] 2 ["bg", "xyz"] =
      ⟨[], ["bg: argument must be a PID or %jobid"], [], none⟩ := by
  have h := c8_invalid_argument [] ["bg"] "xyz" []
  exact ⟨h.1, h.2.2.1 (by decide)⟩

/-! ### Claim C7: the transition-system invariant -/

theorem foldr_max_nonneg (t : JobTable) :
    0 ≤ t.foldr (fun r m => max m r.jid) 0 := by
  induction t with
  | nil => simp
  | cons r rest ih =>
    simp only [List.foldr_cons]
    exact le_trans ih (le_max_left _ _)

theorem foldr_max_ge (t : JobTable) :
    ∀ r ∈ t, r.jid ≤ t.foldr (fun r m => max m r.jid) 0 := by
  induction t with
  | nil => intro r hr; cases hr
  | cons a rest ih =>
    intro r hr
    rcases List.mem_cons.1 hr with rfl | hr2
    · simp only [List.foldr_cons]
      exact le_max_right _ _
    · simp only [List.foldr_cons]
      exact le_trans (ih r hr2) (le_max_left _ _)

theorem WF_add_job {t : JobTable} (h : WF t) (p : Int) (s : JobState)
    (cmd : String) : WF (add_job t p s cmd).1 := by
  have hmax := foldr_max_nonneg t
  unfold add_job
  constructor
  · intro r hr
    rcases List.mem_append.1 hr with hr1 | hr2
    · exact h.1 r hr1
    · rw [List.mem_singleton] at hr2
      have h2 : r.jid = (t.foldr (fun r m => max m r.jid) 0) + 1 := by
        rw [hr2]
      omega
  · rw [List.map_append, List.nodup_append]
    refine ⟨h.2, List.nodup_singleton _, ?_⟩
    intro x hx hx2
    rcases List.mem_map.1 hx with ⟨r, hr, rfl⟩
    have h1 := foldr_max_ge t r hr
    rw [List.map_singleton, List.mem_singleton] at hx2
    have h2 : r.jid = (t.foldr (fun r m => max m r.jid) 0) + 1 := hx2
    omega

theorem countFG_add_job (t : JobTable) (p : Int) (s : JobState)
    (cmd : String) :
    countFG (add_job t p s cmd).1 =
      countFG t + (if s = JobState.FG then 1 else 0) := by
  unfold add_job countFG
  rw [List.filter_append, List.length_append]
  congr 1
  by_cases h : s = JobState.FG <;> simp [h]

theorem bg_builtin_tbl (t : JobTable) (argc : Nat) (argv : List String) :
    (bg_builtin t argc argv).tbl = t ∨
      ∃ j, (bg_builtin t argc argv).tbl =
        job_set_state t j JobState.BG := by
  unfold bg_builtin
  by_cases h1 : argc = 1
  · rw [if_pos h1]
    exact Or.inl rfl
  · rw [if_neg h1]
    by_cases h2 : atoi (stripMarker (argv.getD 1 "")) = 0
    · rw [if_pos h2]
      exact Or.inl rfl
    · rw [if_neg h2]
      by_cases h3 : job_exists t (atoi (stripMarker (argv.getD 1 ""))) =
          true
      · rw [if_pos h3]
        exact Or.inr ⟨_, rfl⟩
      · rw [if_neg h3]
        by_cases h4 :
            job_from_pid t (atoi (stripMarker (argv.getD 1 ""))) = 0
        · rw [if_pos h4]
          exact Or.inl rfl
        · rw [if_neg h4]
          exact Or.inr ⟨_, rfl⟩

theorem fg_builtin_tbl {t : JobTable} {argc : Nat} {argv : List String}
    {evs : List (Int × Status)} {res : BuiltinRes}
    (h : fg_builtin t argc argv evs = some res) :
    res.tbl = t ∨
      ∃ j out, waitRun false (job_set_state t j JobState.FG) evs =
        some (res.tbl, out) := by
  unfold fg_builtin at h
  by_cases h1 : argc = 1
  · rw [if_pos h1] at h
    simp only [Option.some.injEq] at h
    exact Or.inl (by rw [← h])
  · rw [if_neg h1] at h
    by_cases h2 : atoi (stripMarker (argv.getD 1 "")) = 0
    · rw [if_pos h2] at h
      simp only [Option.some.injEq] at h
      exact Or.inl (by rw [← h])
    · rw [if_neg h2] at h
      by_cases h3 : job_exists t (atoi (stripMarker (argv.getD 1 ""))) =
          true
      · rw [if_pos h3] at h
        dsimp only at h
        rcases hw : waitRun false
            (job_set_state t (atoi (stripMarker (argv.getD 1 "")))
              JobState.FG) evs with _ | pr
        · rw [hw] at h
          exact absurd h (by simp)
        · rcases pr with ⟨t2, out⟩
          rw [hw] at h
          simp only [Option.some.injEq] at h
          refine Or.inr ⟨atoi (stripMarker (argv.getD 1 "")), out, ?_⟩
          rw [← h]
          exact hw
      · rw [if_neg h3] at h
        by_cases h4 :
            job_from_pid t (atoi (stripMarker (argv.getD 1 ""))) = 0
        · rw [if_pos h4] at h
          simp only [Option.some.injEq] at h
          exact Or.inl (by rw [← h])
        · rw [if_neg h4] at h
          dsimp only at h
          rcases hw : waitRun false
              (job_set_state t
                (job_from_pid t (atoi (stripMarker (argv.getD 1 ""))))
                JobState.FG) evs with _ | pr
          · rw [hw] at h
            exact absurd h (by simp)
          · rcases pr with ⟨t2, out⟩
            rw [hw] at h
            simp only [Option.some.injEq] at h
            refine Or.inr
              ⟨job_from_pid t (atoi (stripMarker (argv.getD 1 ""))),
                out, ?_⟩
            rw [← h]
            exact hw

theorem HStep_WF {t t2 : JobTable} (h : HStep t t2) (hW : WF t) :
    WF t2 := by
  cases h with
  | reap p st => exact WF_reapOne hW p st

theorem HStep_countFG_le {t t2 : JobTable} (h : HStep t t2) :
    countFG t2 ≤ countFG t := by
  cases h with
  | reap p st => exact countFG_reapOne_le p st

theorem HReach_WF {t t2 : JobTable} (h : HReach t t2) (hW : WF t) :
    WF t2 := by
  induction h with
  | refl => exact hW
  | tail h1 h2 ih => exact HStep_WF h2 ih

theorem HReach_countFG_le {t t2 : JobTable} (h : HReach t t2) :
    countFG t2 ≤ countFG t := by
  induction h with
  | refl => exact le_refl _
  | tail h1 h2 ih => exact le_trans (HStep_countFG_le h2) ih

theorem promptReach_inv : ∀ {t : JobTable}, PromptReach t →
    WF t ∧ countFG t = 0 := by
  intro t h
  induction h with
  | start =>
    exact ⟨⟨(by intro r hr; cases hr), List.nodup_nil⟩, rfl⟩
  | handler hp hs ih =>
    exact ⟨HStep_WF hs ih.1,
      Nat.le_zero.1 (ih.2 ▸ HStep_countFG_le hs)⟩
  | launchBG pid cmd hp ih =>
    refine ⟨WF_add_job ih.1 pid _ _, ?_⟩
    rw [countFG_add_job, ih.2]
    simp
  | launchFG pid cmd hp hr hexit ih =>
    have hWF2 := HReach_WF hr (WF_add_job ih.1 pid _ _)
    exact ⟨hWF2, countFG_zero_of_exit hWF2 hexit⟩
  | bgCmd argc argv hp ih =>
    rcases bg_builtin_tbl _ argc argv with he | ⟨j, he⟩
    · rw [he]
      exact ih
    · rw [he]
      exact ⟨WF_job_set_state ih.1,
        Nat.le_zero.1 (le_trans (countFG_set_state_le (by decide) _ j)
          (le_of_eq ih.2))⟩
  | fgCmd argc argv evs res hp hres ih =>
    rcases fg_builtin_tbl hres with he | ⟨j, out, hw⟩
    · rw [he]
      exact ih
    · have hWF1 := @WF_job_set_state _ j JobState.FG ih.1
      have hWF2 : WF res.tbl :=
        @waitRun_preserve WF (fun u p st hh => WF_reapOne hh p st) false
          evs _ _ out hWF1 hw
      exact ⟨hWF2, countFG_zero_of_exit hWF2 (waitRun_some_exit hw)⟩

/-- Claim C7: in every reachable state of the shell — at the prompt or
at any instant inside a foreground wait — the job table contains at
most one record in state Foreground; every table operation (job
registration in eval, the bg and fg builtins, the SIGCHLD handler)
preserves this bound. -/
theorem c7_at_most_one_foreground :
    ∀ t : JobTable, Reach t → countFG t ≤ 1 := by
  intro t h
  cases h with
  | prompt hp =>
    rw [(promptReach_inv hp).2]
    omega
  | midFG pid cmd hp hr =>
    have hinv := promptReach_inv hp
    refine le_trans (HReach_countFG_le hr) ?_
    rw [countFG_add_job, hinv.2]
    simp
  | midFg j hp hr =>
    have hinv := promptReach_inv hp
    have h1 := @countFG_set_state_FG_le _ j hinv.1.2
    have h2 := HReach_countFG_le hr
    omega

/-- Witness for C7: the table holding the single foreground job
`sleep 5` is reachable (launch it from the empty prompt), and it indeed
has at most one foreground record. -/
theorem c7_at_most_one_foreground_witness :
    countFG [(⟨1, 100, JobState.FG, "sleep 5"⟩ : JobRec)] ≤ 1 :=
  c7_at_most_one_foreground _
    (Reach.midFG 100 "sleep 5" PromptReach.start
      Relation.ReflTransGen.refl)

/-! ### Claim C9: atomic check-then-sleep, no lost wakeup -/

theorem pid_find_cons_pos (r : JobRec) (l : JobTable) (p : Int)
    (h : (r.pid == p) = true) :
    (r :: l).find? (fun x => x.pid == p) = some r :=
  List.find?_cons_of_pos _ h

theorem pid_find_cons_neg (r : JobRec) (l : JobTable) (p : Int)
    (h : ¬(r.pid == p) = true) :
    (r :: l).find? (fun x => x.pid == p) =
      l.find? (fun x => x.pid == p) :=
  List.find?_cons_of_neg _ h

theorem job_from_pid_of_mem_nodup {p : Int} :
    ∀ {t : JobTable} {r : JobRec}, PidsNodup t → r ∈ t → r.pid = p →
      job_from_pid t p = r.jid := by
  intro t
  induction t with
  | nil => intro r hnd hm hp; cases hm
  | cons a rest ih =>
    intro r hnd hm hp
    unfold PidsNodup at hnd
    simp only [List.map_cons, List.nodup_cons] at hnd
    rcases List.mem_cons.1 hm with rfl | hm2
    · unfold job_from_pid
      rw [pid_find_cons_pos r rest p (by simp [hp])]
    · have hne : a.pid ≠ p := by
        intro he
        apply hnd.1
        rw [he, ← hp]
        exact List.mem_map.2 ⟨r, hm2, rfl⟩
      unfold job_from_pid at ih ⊢
      rw [pid_find_cons_neg a rest p (by simp [hne])]
      exact ih hnd.2 hm2 hp

theorem jp_inv_reapOne {t : JobTable} {j p : Int}
    (hjp : ∀ r ∈ t, r.jid = j → r.pid = p) (q : Int) (st : Status) :
    ∀ r2 ∈ (reapOne t q st).1, r2.jid = j → r2.pid = p := by
  intro r2 hm2 hj2
  cases st with
  | exited c =>
    rw [reapOne_fst_exited] at hm2
    exact hjp r2 (mem_delete_job.1 hm2).1 hj2
  | signaled s =>
    rw [reapOne_fst_signaled] at hm2
    exact hjp r2 (mem_delete_job.1 hm2).1 hj2
  | stopped s =>
    rw [reapOne_fst_stopped] at hm2
    rcases mem_job_set_state hm2 with ⟨r0, hm0, heq⟩
    by_cases hb : (r0.jid == job_from_pid t q) = true
    · rw [if_pos hb] at heq
      rw [heq] at hj2 ⊢
      exact hjp r0 hm0 hj2
    · rw [if_neg hb] at heq
      rw [heq] at hj2 ⊢
      exact hjp r0 hm0 hj2

theorem fg_job_zero_waitRun {t : JobTable} (h : fg_job t = 0)
    (ps : Bool) (evs : List (Int × Status)) :
    waitRun ps t evs = some (t, []) := by
  unfold waitRun
  rw [h]
  rw [if_neg (by decide : ¬((0 : Int) > 0))]

/-- Liveness of the wait loop: if a terminating (non-stop) notification
for the foreground job's pid is pending, the loop reaches its exit and
returns — no wakeup is lost. -/
theorem waitRun_terminates (ps : Bool) (j p : Int) :
    ∀ (evs : List (Int × Status)) (t : JobTable),
      WF t → PidsNodup t → FGonly t j →
      (∀ r ∈ t, r.jid = j → r.pid = p) →
      (∃ st, (p, st) ∈ evs ∧ isStopped st = false) →
      ∃ t2 out, waitRun ps t evs = some (t2, out) := by
  intro evs
  induction evs with
  | nil =>
    intro t _ _ _ _ hev
    rcases hev with ⟨st, hmem, _⟩
    cases hmem
  | cons e rest ih =>
    intro t hWF hPid hFG hjp hev
    by_cases h1 : fg_job t > 0
    · by_cases h2 : job_get_state t (fg_job t) = some JobState.ST
      · refine ⟨t, if ps then ["job is stopped"] else [], ?_⟩
        unfold waitRun
        rw [if_pos h1, if_pos h2]
      · rcases e with ⟨q, st'⟩
        have hne0 : fg_job t ≠ 0 := by omega
        rcases fg_job_find hne0 with ⟨r, hm, hs, hj⟩
        have hrj : r.jid = j := hFG r hm hs
        have hrp : r.pid = p := hjp r hm hrj
        have hWF1 := WF_reapOne hWF q st'
        have hPid1 := PidsNodup_reapOne hPid q st'
        have hFG1 := FGonly_reapOne hFG q st'
        have hjp1 := jp_inv_reapOne hjp q st'
        rcases hev with ⟨st, hmem, hterm⟩
        rcases List.mem_cons.1 hmem with heq | hmem2
        · -- the pending event is the very next delivery
          have hq : p = q := congrArg Prod.fst heq
          have hst : st = st' := congrArg Prod.snd heq
          subst hq
          subst hst
          have hfp : job_from_pid t p = j := by
            rw [job_from_pid_of_mem_nodup hPid hm hrp, hrj]
          have hdel : (reapOne t p st).1 = delete_job t j := by
            cases st with
            | exited c => rw [reapOne_fst_exited, hfp]
            | signaled s => rw [reapOne_fst_signaled, hfp]
            | stopped s => exact absurd hterm (by simp [isStopped])
          have hno : fg_job (reapOne t p st).1 = 0 := by
            rw [fg_job_eq_zero_iff hWF1.1]
            intro r2 hm2 hs2
            rw [hdel] at hm2
            rcases mem_delete_job.1 hm2 with ⟨hm3, hne3⟩
            exact hne3 (hFG r2 hm3 hs2)
          refine ⟨(reapOne t p st).1, (reapOne t p st).2 ++ [], ?_⟩
          unfold waitRun
          rw [if_pos h1, if_neg h2]
          dsimp only
          rw [fg_job_zero_waitRun hno ps rest]
        · rcases ih (reapOne t q st').1 hWF1 hPid1 hFG1 hjp1
            ⟨st, hmem2, hterm⟩ with ⟨t2, out, hw⟩
          refine ⟨t2, (reapOne t q st').2 ++ out, ?_⟩
          unfold waitRun
          rw [if_pos h1, if_neg h2]
          dsimp only
          rw [hw]
    · refine ⟨t, [], ?_⟩
      unfold waitRun
      rw [if_neg h1]

/-- Claim C9: the foreground wait protocol's check-then-sleep step is
atomic with respect to notification delivery: (1) in eval's wait loop
the condition checks run under a mask containing the three
notifications and `sigsuspend` suspends with the empty mask, which
blocks none of them; (2) the fg builtin's two wait loops check under a
mask containing the three and suspend with the saved entry mask, which
blocks none of them whenever the entry mask is disjoint from the three
(as it is for every call in this program); (3) consequently a pending
terminating notification for the foreground job's pid always ends the
loop — no wakeup is lost. -/
theorem c9_no_lost_wakeup :
    (∀ entry : SigSet,
      (eval_masks entry EvalPath.fgWait).check =
        some (entry ∪ threeSet) ∧
      (eval_masks entry EvalPath.fgWait).suspend = some ∅ ∧
      (∀ s ∈ threeSet, s ∉ (∅ : SigSet))) ∧
    (∀ (entry : SigSet) (p : BuiltinPath),
      p = BuiltinPath.fgWaitJid ∨ p = BuiltinPath.fgWaitPid →
      (builtincmd_masks entry p).check = some (entry ∪ threeSet) ∧
      (builtincmd_masks entry p).suspend = some entry ∧
      (entry ∩ threeSet = ∅ → ∀ s ∈ threeSet, s ∉ entry)) ∧
    (∀ (ps : Bool) (j p : Int) (evs : List (Int × Status))
        (t : JobTable),
      WF t → PidsNodup t → FGonly t j →
      (∀ r ∈ t, r.jid = j → r.pid = p) →
      (∃ st, (p, st) ∈ evs ∧ isStopped st = false) →
      ∃ t2 out, waitRun ps t evs = some (t2, out)) := by
  refine ⟨?_, ?_, ?_⟩
  · intro entry
    refine ⟨rfl, rfl, ?_⟩
    intro s hs
    simp
  · intro entry p hp
    have hdisj : entry ∩ threeSet = ∅ → ∀ s ∈ threeSet, s ∉ entry := by
      intro hdis s hs hse
      have hmem : s ∈ entry ∩ threeSet := Finset.mem_inter.2 ⟨hse, hs⟩
      rw [hdis] at hmem
      exact absurd hmem (Finset.not_mem_empty s)
    rcases hp with rfl | rfl
    · exact ⟨rfl, rfl, hdisj⟩
    · exact ⟨rfl, rfl, hdisj⟩
  · intro ps j p evs t hWF hPid hFG hjp hev
    exact waitRun_terminates ps j p evs t hWF hPid hFG hjp hev

/-- Witness for C9: eval's wait on `sleep 5` (job 1, pid 100) with a
pending SIGINT termination ends, and the fg builtin's suspension mask
at empty entry mask is empty. -/
theorem c9_no_lost_wakeup_witness :
    (∃ t2 out,
      waitRun true [(⟨1, 100, JobState.FG, "sleep 5"⟩ : JobRec)]
        [(100, Status.signaled 2)] = some (t2, out)) ∧
    (builtincmd_masks ∅ BuiltinPath.fgWaitJid).suspend = some ∅ := by
  have h := c9_no_lost_wakeup
  refine ⟨h.2.2 true 1 100 [(100, Status.signaled 2)]
    [⟨1, 100, JobState.FG, "sleep 5"⟩] (by unfold WF; decide)
    (by unfold PidsNodup; decide) (by unfold FGonly; decide)
    (by decide) ⟨Status.signaled 2, by decide, rfl⟩,
    (h.2.1 ∅ BuiltinPath.fgWaitJid (Or.inl rfl)).2.1⟩

/-! ### Claim C3 -/

/-- Claim C3 counterexample: eval's foreground path ends with
`sigprocmask(SIG_SETMASK, &prev, NULL)` where `prev` is the empty set
built at line 197, not the entry mask saved in `prev_all`; entering
eval with SIGQUIT blocked therefore returns with the empty mask, not
the entry mask. -/
theorem c3_counterexample :
    (eval_masks {SIGQUIT} EvalPath.fgWait).final = (∅ : SigSet) ∧
    (eval_masks {SIGQUIT} EvalPath.fgWait).final ≠
      ({SIGQUIT} : SigSet) := by
  constructor
  · rfl
  · decide

/-- Claim C3 amended: every critical section blocks (at least) the
three asynchronous notifications, and every exit path restores the
entry mask — except eval's foreground-wait path, which sets the final
mask to the empty set; hence the mask after eval equals the mask at
entry on that path exactly when eval is entered with the empty mask,
which is the case for every call from the shell's read/eval loop. -/
theorem c3_mask_discipline (entry : SigSet) :
    (∀ p, p ≠ EvalPath.fgWait → (eval_masks entry p).final = entry) ∧
    (eval_masks entry EvalPath.fgWait).final = ∅ ∧
    (∀ p, ∀ m ∈ (eval_masks entry p).critical, threeSet ⊆ m) ∧
    (∀ p, (builtincmd_masks entry p).final = entry) ∧
    (∀ p, ∀ m ∈ (builtincmd_masks entry p).critical, threeSet ⊆ m) := by
  have h3all : threeSet ⊆ allSigs := by decide
  have hsub1 : ∀ e : SigSet, threeSet ⊆ e ∪ threeSet :=
    fun e x hx => Finset.mem_union.2 (Or.inr hx)
  have hsub2 : ∀ e f : SigSet, threeSet ⊆ (e ∪ threeSet) ∪ f :=
    fun e f x hx =>
      Finset.mem_union.2 (Or.inl (Finset.mem_union.2 (Or.inr hx)))
  have hsub3 : ∀ e : SigSet, threeSet ⊆ e ∪ allSigs :=
    fun e x hx => Finset.mem_union.2 (Or.inr (h3all hx))
  refine ⟨?_, rfl, ?_, ?_, ?_⟩
  · intro p hp
    cases p with
    | infileFail => rfl
    | outfileFail => rfl
    | fgWait => exact absurd rfl hp
    | bgLaunch => rfl
  · intro p m hm
    cases p with
    | infileFail => cases hm
    | outfileFail => cases hm
    | fgWait =>
      simp only [eval_masks, List.mem_cons, List.not_mem_nil,
        or_false] at hm
      rcases hm with rfl | rfl
      · exact hsub2 entry allSigs
      · exact hsub1 entry
    | bgLaunch =>
      simp only [eval_masks, List.mem_cons, List.not_mem_nil,
        or_false] at hm
      rcases hm with rfl | rfl
      · exact hsub2 entry allSigs
      · exact hsub3 entry
  · intro p
    cases p <;> rfl
  · intro p m hm
    cases p with
    | jobsList =>
      simp only [builtincmd_masks, List.mem_cons, List.not_mem_nil,
        or_false] at hm
      rcases hm with rfl
      exact hsub3 entry
    | jobsFail =>
      simp only [builtincmd_masks, List.mem_cons, List.not_mem_nil,
        or_false] at hm
      rcases hm with rfl
      exact hsub3 entry
    | refErrArg => cases hm
    | bgNoSuchJob =>
      simp only [builtincmd_masks, List.mem_cons, List.not_mem_nil,
        or_false] at hm
      rcases hm with rfl
      exact hsub3 entry
    | bgRun =>
      simp only [builtincmd_masks, List.mem_cons, List.not_mem_nil,
        or_false] at hm
      rcases hm with rfl
      exact hsub3 entry
    | fgNoSuchJob =>
      simp only [builtincmd_masks, List.mem_cons, List.not_mem_nil,
        or_false] at hm
      rcases hm with rfl
      exact hsub3 entry
    | fgWaitJid =>
      simp only [builtincmd_masks, List.mem_cons, List.not_mem_nil,
        or_false] at hm
      rcases hm with rfl | rfl
      · exact hsub3 entry
      · exact hsub1 entry
    | fgWaitPid =>
      simp only [builtincmd_masks, List.mem_cons, List.not_mem_nil,
        or_false] at hm
      rcases hm with rfl | rfl
      · exact hsub3 entry
      · exact hsub1 entry

/-- Witness for the amended C3 at the empty entry mask. -/
theorem c3_mask_discipline_witness :
    (eval_masks ∅ EvalPath.infileFail).final = ∅ ∧
    (eval_masks ∅ EvalPath.fgWait).final = ∅ ∧
    (builtincmd_masks ∅ BuiltinPath.bgRun).final = ∅ ∧
    threeSet ⊆ ((∅ ∪ threeSet : SigSet)) := by
  have h := c3_mask_discipline ∅
  exact ⟨h.1 EvalPath.infileFail (by decide), h.2.1,
    h.2.2.2.1 BuiltinPath.bgRun,
    h.2.2.1 EvalPath.fgWait (∅ ∪ threeSet) (by decide)⟩
